import Mathlib

/-!
Shallow embedding of `aepsych/generators/acqf_thompson_sampler_generator.py`
(class `AcqfThompsonSamplerGenerator`).

Conventions of the embedding:
- torch tensors are nested lists of rationals (`ℚ` replaces floating point,
  with exact arithmetic; in `ℚ`, `x / 0 = 0`, which stands in for the NaN
  produced by `0.0 / 0.0` in floating point — in both cases the resulting
  vector is not a valid probability vector and `np.random.choice` rejects it).
- a raised Python exception is `none` in an `Option` result.
- the external random sources (the Sobol engine, `torch.rand` under
  `manual_seed`, and numpy's global `RandomState` used by
  `np.random.choice`) are modelled by concrete deterministic functions with
  range in `[0,1)`; what matters for the claims is which arguments each
  source depends on (the Sobol/torch draws depend on the `seed` option,
  numpy's global stream depends only on its own ambient state).
-/

set_option autoImplicit false
set_option linter.unusedVariables false

namespace AcqfThompson

/-- The acquisition-function identities the generator dispatches on:
the preference variant `AnalyticExpectedUtilityOfBestOption`, the four
baseline-requiring variants, and `generic t` for any other acquisition
class (the default path of the dispatch). -/
inductive AcqfId where
  | analyticExpectedUtilityOfBestOption
  | noisyExpectedImprovement
  | logNoisyExpectedImprovement
  | qNoisyExpectedImprovement
  | qLogNoisyExpectedImprovement
  | generic (tag : Nat)
deriving DecidableEq, Repr

/-- `AcqfThompsonSamplerGenerator.baseline_requiring_acqfs`:
`[NoisyExpectedImprovement, LogNoisyExpectedImprovement,
qNoisyExpectedImprovement, qLogNoisyExpectedImprovement]`. -/
def baseline_requiring_acqfs : List AcqfId :=
  [.noisyExpectedImprovement, .logNoisyExpectedImprovement,
   .qNoisyExpectedImprovement, .qLogNoisyExpectedImprovement]

/-- Extra keyword arguments for the acquisition function (`acqf_kwargs`),
an opaque key/value mapping. -/
abbrev Kwargs : Type := List (Nat × ℚ)

/-- The fitted surrogate model (`ModelProtocol`): `train_inputs` is
`some ti` when the model records training inputs (`ti` embeds
`model.train_inputs[0]`), `none` when accessing `model.train_inputs[0]`
raises; `score` is the model's opaque contribution to acquisition values,
one scalar per candidate row of shape `(q, D)`. -/
structure Model where
  train_inputs : Option (List (List ℚ))
  score : List (List ℚ) → ℚ

/-- The result of `self.acqf(...)`: which constructor call
`_instantiate_acquisition_fn` made, with exactly the arguments it passed. -/
inductive InstantiatedAcqf where
  | prefOnly (model : Model)
  | withBaseline (model : Model) (trainInputs : List (List ℚ)) (kwargs : Kwargs)
  | withKwargs (model : Model) (kwargs : Kwargs)

/-- Modelled from the environment: batched evaluation `acqf(X_rnd)` of the
instantiated acquisition function on one candidate row, abstracted as the
model's opaque scoring of that row. -/
def InstantiatedAcqf.eval : InstantiatedAcqf → List (List ℚ) → ℚ
  | .prefOnly m, x => m.score x
  | .withBaseline m _ _, x => m.score x
  | .withKwargs m _, x => m.score x

/-- `AcqfThompsonSamplerGenerator._instantiate_acquisition_fn`:
```
if self.acqf == AnalyticExpectedUtilityOfBestOption:
    return self.acqf(pref_model=model)
if self.acqf in self.baseline_requiring_acqfs:
    return self.acqf(model, model.train_inputs[0], **self.acqf_kwargs)
else:
    return self.acqf(model=model, **self.acqf_kwargs)
```
`none` models the exception raised by `model.train_inputs[0]` when the
model records no training inputs. -/
def instantiate_acquisition_fn (acqf : AcqfId) (acqf_kwargs : Kwargs)
    (model : Model) : Option InstantiatedAcqf :=
  if acqf = .analyticExpectedUtilityOfBestOption then
    some (.prefOnly model)
  else if acqf ∈ baseline_requiring_acqfs then
    match model.train_inputs with
    | some ti => some (.withBaseline model ti acqf_kwargs)
    | none => none
  else
    some (.withKwargs model acqf_kwargs)

/-- `torch.quasirandom.SobolEngine.MAXDIM`. -/
def sobolMAXDIM : Nat := 21201

/-- Modelled from the environment: the unit-cube value the Sobol engine
(`draw_sobol_samples`, seeded with `seed`) produces for sample `i`,
q-batch position `j`, dimension `d`; a concrete deterministic function of
the seed with range in `[0,1)`. -/
def sobolUnit (seed : Option Nat) (i j d : Nat) : ℚ :=
  (((seed.getD 0 + 2 * i + 3 * j + 5 * d) % 97 : Nat) : ℚ) / 97

/-- Modelled from the environment: the unit value `torch.rand` produces
under `manual_seed(seed)` at position `(i, j, d)`; a concrete
deterministic function of the seed with range in `[0,1)`. -/
def torchRandUnit (seed : Option Nat) (i j d : Nat) : ℚ :=
  (((seed.getD 0 + 7 * i + 11 * j + 13 * d) % 101 : Nat) : ℚ) / 101

/-- Rescaling of a unit-cube point to the bounds, dimension by dimension:
`bounds_cpu[0] + (bounds_cpu[1] - bounds_cpu[0]) * X_rnd_nlzd` (the same
affine rescaling `draw_sobol_samples` applies internally). -/
def scaleToBounds (lb ub : List ℚ) (u : Nat → ℚ) : List ℚ :=
  (List.range lb.length).map fun d =>
    lb.getD d 0 + (ub.getD d 0 - lb.getD d 0) * u d

/-- The constructor state of the generator used by `_gen`:
bounds `lb`/`ub`, pool size `samps`, and `stimuli_per_trial`
(an integer: the code only ever compares it with 2). -/
structure GenConfig where
  lb : List ℚ
  ub : List ℚ
  samps : Nat
  stimuli_per_trial : Int

/-- The Sobol branch of `_gen`:
`draw_sobol_samples(bounds=bounds_cpu, n=self.samps, q=num_points, seed=seed)`,
an array of shape `(samps, q, D)`. -/
def sobolPool (cfg : GenConfig) (q : Nat) (seed : Option Nat) :
    List (List (List ℚ)) :=
  (List.range cfg.samps).map fun i =>
    (List.range q).map fun j => scaleToBounds cfg.lb cfg.ub (sobolUnit seed i j)

/-- The fallback branch of `_gen`: `torch.rand(self.samps, num_points, D)`
under `manual_seed(seed)`, rescaled to the bounds, shape `(samps, q, D)`. -/
def fallbackPool (cfg : GenConfig) (q : Nat) (seed : Option Nat) :
    List (List (List ℚ)) :=
  (List.range cfg.samps).map fun i =>
    (List.range q).map fun j =>
      scaleToBounds cfg.lb cfg.ub (torchRandUnit seed i j)

/-- The candidate-pool sampling step of `_gen`:
`effective_dim = bounds.shape[-1] * num_points` (that is, `D * q`), with the
Sobol draw when `effective_dim <= SobolEngine.MAXDIM` and the seeded
pseudo-random fallback otherwise. -/
def samplePool (cfg : GenConfig) (q : Nat) (seed : Option Nat) :
    List (List (List ℚ)) :=
  if cfg.lb.length * q ≤ sobolMAXDIM then sobolPool cfg q seed
  else fallbackPool cfg q seed

/-- `acqf_vals.min()` on a nonempty tensor: the least element
(0 on the empty list, which never occurs with a nonempty pool). -/
def tensorMin : List ℚ → ℚ
  | [] => 0
  | a :: rest => rest.foldl min a

/-- The normalization step of `_gen`:
`acqf_vals -= acqf_vals.min(); probability_dist = acqf_vals / acqf_vals.sum()`.
When the shifted scores sum to 0, every quotient is `x / 0 = 0` in `ℚ`
(standing in for the all-NaN vector floating point produces). -/
def probabilityDist (scores : List ℚ) : List ℚ :=
  let shifted := scores.map fun v => v - tensorMin scores
  shifted.map fun v => v / shifted.sum

/-- `np.random.choice`'s validation of the `p` argument: entries
non-negative and summing to 1 (NaN entries fail both in numpy). -/
def validProbs (p : List ℚ) : Bool :=
  p.all (fun x => 0 ≤ x) && p.sum == 1

/-- Inverse-CDF draw: the first index at which the cumulative sum of `p`
exceeds the uniform variate `u`. -/
def drawIndex (p : List ℚ) (u : ℚ) : Nat :=
  match p with
  | [] => 0
  | x :: rest => if u < x then 0 else 1 + drawIndex rest (u - x)

/-- `np.random.choice(np.arange(n), size=1, p=p)` consuming the uniform
variate `u` from numpy's global stream: `none` models the `ValueError`
numpy raises when `p` has the wrong length or is not a valid probability
vector (which is what an all-NaN or all-zero `p` triggers). -/
def npChoice (n : Nat) (p : List ℚ) (u : ℚ) : Option Nat :=
  if p.length = n ∧ validProbs p then some (drawIndex p u) else none

/-- Modelled from the environment: the uniform variate numpy's global
`RandomState` at state `g` yields to `np.random.choice`. The state is
ambient process state: it is not derived from the `seed` option. -/
def npGlobalUniform (g : Nat) : ℚ := ((g % 64 : Nat) : ℚ) / 64

/-- Modelled from the environment: numpy's global `RandomState` advances
when `np.random.choice` draws. -/
def npGlobalNext (g : Nat) : Nat := g + 1

/-- `AcqfThompsonSamplerGenerator._gen`: instantiate the acquisition
function, build the candidate pool, score it, shift and normalize the
scores, draw one index with `np.random.choice`, and return that pool row
(`X_rnd[candidate_idx].squeeze(0)`, shape `(q, D)`). The pair is the
result (an exception is `none`) and the numpy global state after the call
(`np.random.choice` validates `p` before consuming randomness, so the
state only advances on a successful draw). -/
def genInner (cfg : GenConfig) (model : Model) (acqf : AcqfId) (kw : Kwargs)
    (num_points : Nat) (seed : Option Nat) (g : Nat) :
    Option (List (List ℚ)) × Nat :=
  match instantiate_acquisition_fn acqf kw model with
  | none => (none, g)
  | some acqfInst =>
      let X_rnd := samplePool cfg num_points seed
      let acqf_vals := X_rnd.map acqfInst.eval
      let probability_dist := probabilityDist acqf_vals
      match npChoice X_rnd.length probability_dist (npGlobalUniform g) with
      | none => (none, g)
      | some i => (some (X_rnd.getD i []), npGlobalNext g)

/-- A `gen` result: `(num_points, D)` for the single-stimulus path,
`(num_points, D, 2)` for the paired path (tensors of different rank). -/
inductive GenOutput where
  | single (points : List (List ℚ))
  | paired (points : List (List (List ℚ)))
deriving DecidableEq, Repr

/-- `qbatch_points.reshape(num_points, 2, -1)`: group the flat `(2n, D)`
sequence into `n` consecutive pairs of rows. -/
def reshapePairs (flat : List (List ℚ)) (n : Nat) : List (List (List ℚ)) :=
  (List.range n).map fun k => [flat.getD (2 * k) [], flat.getD (2 * k + 1) []]

/-- `.swapaxes(-1, -2)` on one `(2, D)` slice: the transpose, `(D, 2)`.
`reshapePairs` always yields two-row slices, so only the first branch is
ever taken. -/
def swapLastAxes (slice : List (List ℚ)) : List (List ℚ) :=
  match slice with
  | [r0, r1] => List.zipWith (fun x y => [x, y]) r0 r1
  | other => other

/-- `AcqfThompsonSamplerGenerator.gen`:
```
if self.stimuli_per_trial == 2:
    qbatch_points = self._gen(num_points=num_points * 2, ...)
    return qbatch_points.reshape(num_points, 2, -1).swapaxes(-1, -2)
else:
    return self._gen(num_points=num_points, ...)
``` -/
def gen (cfg : GenConfig) (model : Model) (acqf : AcqfId) (kw : Kwargs)
    (num_points : Nat) (seed : Option Nat) (g : Nat) :
    Option GenOutput × Nat :=
  if cfg.stimuli_per_trial = 2 then
    match genInner cfg model acqf kw (num_points * 2) seed g with
    | (none, gNext) => (none, gNext)
    | (some flat, gNext) =>
        (some (.paired ((reshapePairs flat num_points).map swapLastAxes)), gNext)
  else
    match genInner cfg model acqf kw num_points seed g with
    | (none, gNext) => (none, gNext)
    | (some pts, gNext) => (some (.single pts), gNext)

/-! ### Concrete fixtures for witnesses and counterexamples -/

/-- A one-dimensional generator configuration: `lb=[0]`, `ub=[1]`,
`samps=3`, single-stimulus trials. -/
def cfgUnit : GenConfig :=
  { lb := [0], ub := [1], samps := 3, stimuli_per_trial := 1 }

/-- The same configuration with paired trials (`stimuli_per_trial = 2`). -/
def cfgPaired : GenConfig := { cfgUnit with stimuli_per_trial := 2 }

/-- The same configuration with `stimuli_per_trial = 3` (an unsupported
value, which the code routes through the single-stimulus branch). -/
def cfgTriple : GenConfig := { cfgUnit with stimuli_per_trial := 3 }

/-- A model without recorded training inputs whose scoring reads the first
coordinate of a candidate row (distinct rows get distinct scores). -/
def modelFirstCoord : Model :=
  { train_inputs := none, score := fun r => (r.headD []).headD 0 }

/-- A model whose acquisition scores are all equal (the degenerate case). -/
def modelConstScore : Model :=
  { train_inputs := none, score := fun _ => 1 }

/-- A model with recorded training inputs. -/
def modelWithTrain : Model :=
  { train_inputs := some [[0]], score := fun _ => 0 }

/-! ### Shared helper lemmas -/

theorem getD_mem_of_lt {α : Type} {l : List α} {n : Nat} {d : α}
    (h : n < l.length) : l.getD n d ∈ l := by
  rw [List.getD_eq_getElem?_getD, List.getElem?_eq_getElem h]
  exact List.getElem_mem h

theorem getD_map_range {α : Type} (f : Nat → α) (dflt : α) {n d : Nat}
    (h : d < n) : (((List.range n).map f).getD d dflt) = f d := by
  rw [List.getD_eq_getElem?_getD, List.getElem?_map, List.getElem?_range h]
  rfl

theorem foldl_min_le (l : List ℚ) (a : ℚ) :
    ∀ x ∈ a :: l, l.foldl min a ≤ x := by
  induction l generalizing a with
  | nil =>
      intro x hx
      rcases List.mem_singleton.1 hx with rfl
      exact le_refl _
  | cons b t ih =>
      intro x hx
      have hle : t.foldl min (min a b) ≤ min a b :=
        ih (min a b) _ (List.mem_cons_self _ _)
      rcases List.mem_cons.1 hx with rfl | hx
      · exact le_trans hle (min_le_left _ _)
      · rcases List.mem_cons.1 hx with rfl | hx
        · exact le_trans hle (min_le_right _ _)
        · exact ih (min a b) x (List.mem_cons_of_mem _ hx)

theorem foldl_min_mem (l : List ℚ) (a : ℚ) : l.foldl min a ∈ a :: l := by
  induction l generalizing a with
  | nil => exact List.mem_singleton.2 rfl
  | cons b t ih =>
      have h := ih (min a b)
      rcases List.mem_cons.1 h with h | h
      · rcases min_choice a b with hc | hc <;> rw [List.foldl_cons, h, hc]
        · exact List.mem_cons_self _ _
        · exact List.mem_cons_of_mem _ (List.mem_cons_self _ _)
      · exact List.mem_cons_of_mem _ (List.mem_cons_of_mem _ h)

theorem tensorMin_le {l : List ℚ} {x : ℚ} (hx : x ∈ l) : tensorMin l ≤ x := by
  cases l with
  | nil => cases hx
  | cons a t => exact foldl_min_le t a x hx

theorem tensorMin_mem {l : List ℚ} (h : l ≠ []) : tensorMin l ∈ l := by
  cases l with
  | nil => exact absurd rfl h
  | cons a t => exact foldl_min_mem t a

theorem tensorMin_of_const {l : List ℚ} {c : ℚ} (hne : l ≠ [])
    (h : ∀ x ∈ l, x = c) : tensorMin l = c :=
  h _ (tensorMin_mem hne)

theorem sum_map_div (l : List ℚ) (c : ℚ) :
    (l.map fun x => x / c).sum = l.sum / c := by
  induction l with
  | nil => simp
  | cons a t ih => simp [ih, add_div]

theorem sum_pos_of_mem {l : List ℚ} (hnn : ∀ x ∈ l, 0 ≤ x) {y : ℚ}
    (hy : y ∈ l) (hpos : 0 < y) : 0 < l.sum := by
  induction l with
  | nil => cases hy
  | cons a t ih =>
      rw [List.sum_cons]
      rcases List.mem_cons.1 hy with rfl | hy
      · have ht : 0 ≤ t.sum :=
          List.sum_nonneg fun x hx => hnn x (List.mem_cons_of_mem _ hx)
        linarith
      · have ha : 0 ≤ a := hnn a (List.mem_cons_self _ _)
        have ht : 0 < t.sum :=
          ih (fun x hx => hnn x (List.mem_cons_of_mem _ hx)) hy
        linarith

theorem drawIndex_lt {p : List ℚ} {u : ℚ} (h0 : 0 ≤ u) (h1 : u < p.sum) :
    drawIndex p u < p.length := by
  induction p generalizing u with
  | nil => simp at h1; linarith
  | cons x rest ih =>
      rw [drawIndex]
      split
      · simp
      · rename_i hx
        push_neg at hx
        have := @ih (u - x) (by linarith)
          (by rw [List.sum_cons] at h1; linarith)
        simpa [Nat.add_comm] using Nat.succ_lt_succ this

theorem modFrac_nonneg (n m : Nat) : (0 : ℚ) ≤ ((n % m : Nat) : ℚ) / m := by
  positivity

theorem modFrac_lt_one (n m : Nat) (hm : 0 < m) :
    ((n % m : Nat) : ℚ) / m < 1 := by
  rw [div_lt_one (by exact_mod_cast hm)]
  exact_mod_cast Nat.mod_lt n hm

theorem sobolUnit_nonneg (seed : Option Nat) (i j d : Nat) :
    0 ≤ sobolUnit seed i j d := modFrac_nonneg _ _

theorem sobolUnit_lt_one (seed : Option Nat) (i j d : Nat) :
    sobolUnit seed i j d < 1 := modFrac_lt_one _ _ (by norm_num)

theorem torchRandUnit_nonneg (seed : Option Nat) (i j d : Nat) :
    0 ≤ torchRandUnit seed i j d := modFrac_nonneg _ _

theorem torchRandUnit_lt_one (seed : Option Nat) (i j d : Nat) :
    torchRandUnit seed i j d < 1 := modFrac_lt_one _ _ (by norm_num)

theorem npGlobalUniform_nonneg (g : Nat) : 0 ≤ npGlobalUniform g :=
  modFrac_nonneg _ _

theorem npGlobalUniform_lt_one (g : Nat) : npGlobalUniform g < 1 :=
  modFrac_lt_one _ _ (by norm_num)

theorem scaleToBounds_length (lb ub : List ℚ) (u : Nat → ℚ) :
    (scaleToBounds lb ub u).length = lb.length := by
  simp [scaleToBounds]

theorem scaleToBounds_getD {lb ub : List ℚ} {u : Nat → ℚ} {d : Nat}
    (hd : d < lb.length) :
    (scaleToBounds lb ub u).getD d 0 =
      lb.getD d 0 + (ub.getD d 0 - lb.getD d 0) * u d :=
  getD_map_range _ _ hd

theorem scaleToBounds_getD_bounds {lb ub : List ℚ} {u : Nat → ℚ} {d : Nat}
    (hd : d < lb.length) (hb : lb.getD d 0 < ub.getD d 0)
    (hu0 : 0 ≤ u d) (hu1 : u d < 1) :
    lb.getD d 0 ≤ (scaleToBounds lb ub u).getD d 0 ∧
      (scaleToBounds lb ub u).getD d 0 ≤ ub.getD d 0 := by
  rw [scaleToBounds_getD hd]
  constructor <;> nlinarith

theorem samplePool_length (cfg : GenConfig) (q : Nat) (seed : Option Nat) :
    (samplePool cfg q seed).length = cfg.samps := by
  unfold samplePool sobolPool fallbackPool
  split <;> simp

theorem samplePool_row {cfg : GenConfig} {q : Nat} {seed : Option Nat}
    {row : List (List ℚ)} (h : row ∈ samplePool cfg q seed) :
    ∃ unit : Nat → Nat → ℚ, (∀ j d, 0 ≤ unit j d ∧ unit j d < 1) ∧
      row = (List.range q).map fun j => scaleToBounds cfg.lb cfg.ub (unit j) := by
  unfold samplePool sobolPool fallbackPool at h
  split at h <;> obtain ⟨i, _, rfl⟩ := List.mem_map.1 h
  · exact ⟨sobolUnit seed i,
      fun j d => ⟨sobolUnit_nonneg seed i j d, sobolUnit_lt_one seed i j d⟩, rfl⟩
  · exact ⟨torchRandUnit seed i,
      fun j d => ⟨torchRandUnit_nonneg seed i j d, torchRandUnit_lt_one seed i j d⟩,
      rfl⟩

theorem samplePool_row_shape {cfg : GenConfig} {q : Nat} {seed : Option Nat}
    {row : List (List ℚ)} (h : row ∈ samplePool cfg q seed) :
    row.length = q ∧ ∀ pt ∈ row, pt.length = cfg.lb.length := by
  obtain ⟨unit, _, rfl⟩ := samplePool_row h
  refine ⟨by simp, ?_⟩
  intro pt hpt
  obtain ⟨j, _, rfl⟩ := List.mem_map.1 hpt
  exact scaleToBounds_length _ _ _

theorem samplePool_pt_bounds {cfg : GenConfig} {q : Nat} {seed : Option Nat}
    {pt : List ℚ}
    (hbounds : ∀ d, d < cfg.lb.length → cfg.lb.getD d 0 < cfg.ub.getD d 0) :
    ∀ row ∈ samplePool cfg q seed, pt ∈ row →
      ∀ d, d < cfg.lb.length →
        cfg.lb.getD d 0 ≤ pt.getD d 0 ∧ pt.getD d 0 ≤ cfg.ub.getD d 0 := by
  intro row hmem hpt d hd
  obtain ⟨unit, hunit, rfl⟩ := samplePool_row hmem
  obtain ⟨j, _, rfl⟩ := List.mem_map.1 hpt
  exact scaleToBounds_getD_bounds hd (hbounds d hd) (hunit j d).1 (hunit j d).2

theorem instantiate_eval {acqf : AcqfId} {kw : Kwargs} {model : Model}
    {inst : InstantiatedAcqf}
    (h : instantiate_acquisition_fn acqf kw model = some inst) :
    ∀ r, inst.eval r = model.score r := by
  unfold instantiate_acquisition_fn at h
  split at h
  · cases h; intro r; rfl
  · split at h
    · cases hti : model.train_inputs with
      | none => rw [hti] at h; cases h
      | some ti => rw [hti] at h; cases h; intro r; rfl
    · cases h; intro r; rfl

theorem probabilityDist_sum_zero_of_const {l : List ℚ} {c : ℚ}
    (h : ∀ x ∈ l, x = c) : (probabilityDist l).sum = 0 := by
  unfold probabilityDist
  apply List.sum_eq_zero
  intro x hx
  rcases List.mem_map.1 hx with ⟨v, hv, rfl⟩
  rcases List.mem_map.1 hv with ⟨w, hw, rfl⟩
  have hmin : tensorMin l = c :=
    tensorMin_of_const (List.ne_nil_of_mem hw) h
  rw [h w hw, hmin, sub_self, zero_div]

theorem validProbs_false_of_sum_ne {p : List ℚ} (h : p.sum ≠ 1) :
    validProbs p = false := by
  have hb : (p.sum == 1) = false := beq_eq_false_iff_ne.2 h
  simp [validProbs, hb]

theorem validProbs_sum {p : List ℚ} (h : validProbs p = true) : p.sum = 1 := by
  unfold validProbs at h
  rw [Bool.and_eq_true] at h
  exact beq_iff_eq.1 h.2

theorem npChoice_some {n : Nat} {p : List ℚ} {u : ℚ} {i : Nat}
    (h : npChoice n p u = some i) (hu0 : 0 ≤ u) (hu1 : u < 1) :
    i < n := by
  unfold npChoice at h
  split at h
  · rename_i hc
    cases h
    rw [← hc.1]
    exact drawIndex_lt hu0 (by rw [validProbs_sum hc.2]; exact hu1)
  · cases h

theorem genInner_cases (cfg : GenConfig) (model : Model) (acqf : AcqfId)
    (kw : Kwargs) (n : Nat) (seed : Option Nat) (g : Nat) :
    genInner cfg model acqf kw n seed g = (none, g) ∨
    ∃ i, i < (samplePool cfg n seed).length ∧
      genInner cfg model acqf kw n seed g =
        (some ((samplePool cfg n seed).getD i []), npGlobalNext g) := by
  unfold genInner
  cases hI : instantiate_acquisition_fn acqf kw model with
  | none => exact Or.inl rfl
  | some inst =>
      dsimp only
      cases hC : npChoice (samplePool cfg n seed).length
          (probabilityDist (List.map inst.eval (samplePool cfg n seed)))
          (npGlobalUniform g) with
      | none => exact Or.inl rfl
      | some i =>
          refine Or.inr ⟨i, ?_, rfl⟩
          exact npChoice_some hC (npGlobalUniform_nonneg g) (npGlobalUniform_lt_one g)

theorem genInner_success {cfg : GenConfig} {model : Model} {acqf : AcqfId}
    {kw : Kwargs} {n : Nat} {seed : Option Nat} {g : Nat}
    {res : List (List ℚ)}
    (h : (genInner cfg model acqf kw n seed g).1 = some res) :
    ∃ i, i < (samplePool cfg n seed).length ∧
      res = (samplePool cfg n seed).getD i [] ∧
      genInner cfg model acqf kw n seed g = (some res, npGlobalNext g) := by
  rcases genInner_cases cfg model acqf kw n seed g with heq | ⟨i, hi, heq⟩
  · rw [heq] at h; cases h
  · rw [heq] at h
    obtain rfl : (samplePool cfg n seed).getD i [] = res := Option.some.inj h
    exact ⟨i, hi, rfl, heq⟩

theorem genInner_fst_congr {cfg : GenConfig} {model : Model} {acqf : AcqfId}
    {kw : Kwargs} {n : Nat} {seed : Option Nat} {g1 g2 : Nat}
    (h : npGlobalUniform g1 = npGlobalUniform g2) :
    (genInner cfg model acqf kw n seed g1).1 =
      (genInner cfg model acqf kw n seed g2).1 := by
  unfold genInner
  cases hI : instantiate_acquisition_fn acqf kw model with
  | none => rfl
  | some inst =>
      dsimp only
      rw [h]
      cases hC : npChoice (samplePool cfg n seed).length
          (probabilityDist (List.map inst.eval (samplePool cfg n seed)))
          (npGlobalUniform g2) <;> rfl

theorem probabilityDist_eq (scores : List ℚ) :
    probabilityDist scores =
      (scores.map fun v => v - tensorMin scores).map
        (fun v => v / (scores.map fun v => v - tensorMin scores).sum) := rfl

theorem shiftedSum_pos {scores : List ℚ} {a b : ℚ} (ha : a ∈ scores)
    (hb : b ∈ scores) (hab : a ≠ b) :
    0 < (scores.map fun v => v - tensorMin scores).sum := by
  have hnn : ∀ v ∈ scores.map (fun v => v - tensorMin scores), 0 ≤ v := by
    intro v hv
    rcases List.mem_map.1 hv with ⟨w, hw, rfl⟩
    exact sub_nonneg.2 (tensorMin_le hw)
  rcases hab.lt_or_lt with hlt | hlt
  · refine sum_pos_of_mem hnn (List.mem_map.2 ⟨b, hb, rfl⟩) ?_
    have := tensorMin_le ha
    linarith
  · refine sum_pos_of_mem hnn (List.mem_map.2 ⟨a, ha, rfl⟩) ?_
    have := tensorMin_le hb
    linarith

theorem getD_zipWith_pair {r0 r1 : List ℚ} {d : Nat}
    (h0 : d < r0.length) (h1 : d < r1.length) :
    (List.zipWith (fun x y => [x, y]) r0 r1).getD d [] =
      [r0.getD d 0, r1.getD d 0] := by
  induction r0 generalizing r1 d with
  | nil => cases h0
  | cons x xs ih =>
      cases r1 with
      | nil => cases h1
      | cons y ys =>
          cases d with
          | zero => rfl
          | succ d' =>
              simp only [List.zipWith_cons_cons, List.getD_cons_succ]
              exact ih (Nat.lt_of_succ_lt_succ h0) (Nat.lt_of_succ_lt_succ h1)

/-! ### Claim theorems -/

/-- C1 (counterexample): the claim says the all-equal-scores case is
"handled internally as a uniform distribution and never raised as an
error to the caller of gen"; in fact, with a model whose acquisition
scores are all equal, `gen` propagates the draw failure to the caller
(in the code, `np.random.choice` raises a `ValueError` on the invalid
`p` produced by `0/0`). -/
theorem C1_counterexample :
    (gen cfgUnit modelConstScore (.generic 0) [] 1 (some 0) 21).1 = none :=
  of_decide_eq_true (by with_unfolding_all rfl)

/-- C1 (amended): if every acquisition score is the same constant, the
shifted scores sum to zero, normalization yields an invalid probability
vector, the weighted draw fails, and `_gen` returns the error to its
caller with numpy's global state unchanged; the degenerate case is not
converted to a uniform distribution. -/
theorem C1_amended_theorem (cfg : GenConfig) (model : Model) (acqf : AcqfId)
    (kw : Kwargs) (n : Nat) (seed : Option Nat) (g : Nat) (c : ℚ)
    (hscore : ∀ r, model.score r = c) :
    genInner cfg model acqf kw n seed g = (none, g) := by
  unfold genInner
  cases hI : instantiate_acquisition_fn acqf kw model with
  | none => rfl
  | some inst =>
      dsimp only
      have hvals : ∀ x ∈ List.map inst.eval (samplePool cfg n seed), x = c := by
        intro x hx
        rcases List.mem_map.1 hx with ⟨r, _, rfl⟩
        rw [instantiate_eval hI r, hscore r]
      have hsum : (probabilityDist
          (List.map inst.eval (samplePool cfg n seed))).sum = 0 :=
        probabilityDist_sum_zero_of_const hvals
      have hvp : validProbs (probabilityDist
          (List.map inst.eval (samplePool cfg n seed))) = false :=
        validProbs_false_of_sum_ne (by rw [hsum]; norm_num)
      have hch : npChoice (samplePool cfg n seed).length
          (probabilityDist (List.map inst.eval (samplePool cfg n seed)))
          (npGlobalUniform g) = none := by
        unfold npChoice
        rw [if_neg]
        rintro ⟨-, h2⟩
        rw [hvp] at h2
        exact Bool.noConfusion h2
      rw [hch]

/-- C1 (witness): the amended theorem applied to the concrete all-equal
model. -/
theorem C1_witness :
    genInner cfgUnit modelConstScore (.generic 0) [] 1 (some 0) 21 =
      (none, 21) :=
  C1_amended_theorem cfgUnit modelConstScore (.generic 0) [] 1 (some 0) 21 1
    (fun _ => rfl)

/-- C2 (counterexample): the claim says that with a fixed seed the
selection index is reproducible across repeated runs; in fact
`np.random.choice` consumes numpy's ambient global stream, which the
`seed` option never touches, so two consecutive `gen` calls with the
same seed, model, and configuration (the second starting from the numpy
state the first left behind) return different points. -/
theorem C2_counterexample :
    (gen cfgUnit modelFirstCoord (.generic 0) [] 1 (some 0) 21).1 ≠
      (gen cfgUnit modelFirstCoord (.generic 0) [] 1 (some 0)
        ((gen cfgUnit modelFirstCoord (.generic 0) [] 1 (some 0) 21).2)).1 :=
  of_decide_eq_true (by with_unfolding_all rfl)

/-- C2 (amended): the candidate pool and every downstream value are a
function of the seed, model, and configuration alone, except for the
uniform variate the weighted draw consumes from numpy's global stream:
two `gen` calls with identical seed, model, and configuration return
identical results whenever the global stream hands them the same
variate. -/
theorem C2_amended_theorem (cfg : GenConfig) (model : Model) (acqf : AcqfId)
    (kw : Kwargs) (n : Nat) (seed : Option Nat) (g1 g2 : Nat)
    (h : npGlobalUniform g1 = npGlobalUniform g2) :
    (gen cfg model acqf kw n seed g1).1 = (gen cfg model acqf kw n seed g2).1 := by
  unfold gen
  split
  · have h2 := @genInner_fst_congr cfg model acqf kw (n * 2) seed g1 g2 h
    rcases hA : genInner cfg model acqf kw (n * 2) seed g1 with ⟨r1, s1⟩
    rcases hB : genInner cfg model acqf kw (n * 2) seed g2 with ⟨r2, s2⟩
    rw [hA, hB] at h2
    dsimp only at h2
    subst h2
    cases r1 <;> rfl
  · have h2 := @genInner_fst_congr cfg model acqf kw n seed g1 g2 h
    rcases hA : genInner cfg model acqf kw n seed g1 with ⟨r1, s1⟩
    rcases hB : genInner cfg model acqf kw n seed g2 with ⟨r2, s2⟩
    rw [hA, hB] at h2
    dsimp only at h2
    subst h2
    cases r1 <;> rfl

/-- C2 (witness): the amended theorem at two concrete global states that
yield the same uniform variate. -/
theorem C2_witness :
    (gen cfgUnit modelFirstCoord (.generic 0) [] 1 (some 0) 0).1 =
      (gen cfgUnit modelFirstCoord (.generic 0) [] 1 (some 0) 64).1 :=
  C2_amended_theorem cfgUnit modelFirstCoord (.generic 0) [] 1 (some 0) 0 64
    (by with_unfolding_all rfl)

/-- C3 (counterexample): the claim says the normalized vector sums to 1
for every input score vector including all-equal ones; for the all-equal
vector `[1, 1]` the shifted scores sum to zero and the resulting vector
is `[0, 0]` (all-NaN in floating point), which does not sum to 1. -/
theorem C3_counterexample : (probabilityDist [1, 1]).sum ≠ 1 :=
  of_decide_eq_true (by with_unfolding_all rfl)

/-- C3 (amended): for every score vector with at least two distinct
entries — in particular any non-constant all-negative vector — the
probability vector obtained by subtracting the minimum and dividing by
the sum of shifted scores has no negative entries and sums exactly to 1;
and the concrete scores `[0.1, 0.5, 0.5, 0.9]` yield the weights
`[0.0, 0.25, 0.25, 0.5]`. All-equal vectors are instead the degenerate
case of C1. -/
theorem C3_amended_theorem (scores : List ℚ) (a b : ℚ) (ha : a ∈ scores)
    (hb : b ∈ scores) (hab : a ≠ b) :
    (∀ x ∈ probabilityDist scores, 0 ≤ x) ∧
      (probabilityDist scores).sum = 1 ∧
      probabilityDist [1/10, 1/2, 1/2, 9/10] = [0, 1/4, 1/4, 1/2] := by
  have hpos := shiftedSum_pos ha hb hab
  refine ⟨?_, ?_, of_decide_eq_true (by with_unfolding_all rfl)⟩
  · intro x hx
    rw [probabilityDist_eq] at hx
    rcases List.mem_map.1 hx with ⟨v, hv, rfl⟩
    rcases List.mem_map.1 hv with ⟨w, hw, rfl⟩
    exact div_nonneg (sub_nonneg.2 (tensorMin_le hw)) hpos.le
  · rw [probabilityDist_eq, sum_map_div, div_self (ne_of_gt hpos)]

/-- C3 (witness): the amended theorem at the concrete score vector
`[1, 2]`. -/
theorem C3_witness :
    (∀ x ∈ probabilityDist [1, 2], 0 ≤ x) ∧
      (probabilityDist [1, 2]).sum = 1 ∧
      probabilityDist [1/10, 1/2, 1/2, 9/10] = [0, 1/4, 1/4, 1/2] :=
  C3_amended_theorem [1, 2] 1 2 (by simp) (by simp) (by norm_num)

/-- C4: for valid bounds (`lb[d] < ub[d]` for every dimension), the
candidate pool has shape exactly `(samps, q, D)` and every coordinate lies
within `[lb[d], ub[d]]` inclusive; the proof covers both the
low-discrepancy branch and the pseudo-random fallback branch of
`samplePool`. -/
theorem C4_theorem (cfg : GenConfig) (q : Nat) (seed : Option Nat)
    (hlen : cfg.lb.length = cfg.ub.length)
    (hbounds : ∀ d, d < cfg.lb.length → cfg.lb.getD d 0 < cfg.ub.getD d 0) :
    (samplePool cfg q seed).length = cfg.samps ∧
    ∀ row ∈ samplePool cfg q seed, row.length = q ∧
      ∀ pt ∈ row, pt.length = cfg.lb.length ∧
        ∀ d, d < cfg.lb.length →
          cfg.lb.getD d 0 ≤ pt.getD d 0 ∧ pt.getD d 0 ≤ cfg.ub.getD d 0 := by
  refine ⟨samplePool_length cfg q seed, ?_⟩
  intro row hrow
  refine ⟨(samplePool_row_shape hrow).1, ?_⟩
  intro pt hpt
  exact ⟨(samplePool_row_shape hrow).2 pt hpt,
    samplePool_pt_bounds hbounds row hrow hpt⟩

/-- C4 (witness): the pool invariant at the concrete one-dimensional
configuration. -/
theorem C4_witness :
    (samplePool cfgUnit 1 (some 0)).length = cfgUnit.samps ∧
    ∀ row ∈ samplePool cfgUnit 1 (some 0), row.length = 1 ∧
      ∀ pt ∈ row, pt.length = cfgUnit.lb.length ∧
        ∀ d, d < cfgUnit.lb.length →
          cfgUnit.lb.getD d 0 ≤ pt.getD d 0 ∧
            pt.getD d 0 ≤ cfgUnit.ub.getD d 0 :=
  C4_theorem cfgUnit 1 (some 0) rfl
    (by
      intro d hd
      simp only [cfgUnit, List.length_singleton] at hd ⊢
      interval_cases d
      norm_num)

/-- C5: when `stimuli_per_trial = 2`, `gen` runs the pipeline with
`q = num_points * 2`; on a successful draw the flat `(2*num_points, D)`
result is reshaped to `(num_points, 2, D)` and the pair axis moved last,
yielding shape `(num_points, D, 2)` in which trial `k`'s entry at
dimension `d` is the pair of coordinates of flat rows `2k` and `2k+1`. -/
theorem C5_theorem (cfg : GenConfig) (model : Model) (acqf : AcqfId)
    (kw : Kwargs) (n : Nat) (seed : Option Nat) (g : Nat)
    (h2 : cfg.stimuli_per_trial = 2) (flat : List (List ℚ))
    (hflat : (genInner cfg model acqf kw (n * 2) seed g).1 = some flat) :
    ∃ pts, (gen cfg model acqf kw n seed g).1 = some (GenOutput.paired pts) ∧
      flat.length = n * 2 ∧ pts.length = n ∧
      ∀ k, k < n → (pts.getD k []).length = cfg.lb.length ∧
        ∀ d, d < cfg.lb.length →
          (pts.getD k []).getD d [] =
            [(flat.getD (2 * k) []).getD d 0,
             (flat.getD (2 * k + 1) []).getD d 0] := by
  obtain ⟨i, hi, hres, heq⟩ := genInner_success hflat
  have hmem : flat ∈ samplePool cfg (n * 2) seed := hres ▸ getD_mem_of_lt hi
  have hshape := samplePool_row_shape hmem
  have hrowD : ∀ k, k < n →
      (flat.getD (2 * k) []).length = cfg.lb.length ∧
      (flat.getD (2 * k + 1) []).length = cfg.lb.length := by
    intro k hk
    have h1 : 2 * k < flat.length := by rw [hshape.1]; omega
    have h2' : 2 * k + 1 < flat.length := by rw [hshape.1]; omega
    exact ⟨hshape.2 _ (getD_mem_of_lt h1), hshape.2 _ (getD_mem_of_lt h2')⟩
  refine ⟨(reshapePairs flat n).map swapLastAxes, ?_, hshape.1, ?_, ?_⟩
  · unfold gen
    rw [if_pos h2, heq]
  · simp [reshapePairs]
  · intro k hk
    have hpts : ((reshapePairs flat n).map swapLastAxes).getD k [] =
        List.zipWith (fun x y => [x, y]) (flat.getD (2 * k) [])
          (flat.getD (2 * k + 1) []) := by
      unfold reshapePairs
      rw [List.map_map, getD_map_range _ _ hk]
      rfl
    rw [hpts]
    constructor
    · rw [List.length_zipWith, (hrowD k hk).1, (hrowD k hk).2, Nat.min_self]
    · intro d hd
      exact getD_zipWith_pair (by rw [(hrowD k hk).1]; exact hd)
        (by rw [(hrowD k hk).2]; exact hd)

/-- C5 (witness): the paired-trial reshape at the concrete configuration,
where the flat draw is `[[2/97], [5/97]]`. -/
theorem C5_witness :
    ∃ pts, (gen cfgPaired modelFirstCoord (.generic 0) [] 1 (some 0) 21).1 =
        some (GenOutput.paired pts) ∧
      ([[(2 : ℚ)/97], [(5 : ℚ)/97]] : List (List ℚ)).length = 1 * 2 ∧
      pts.length = 1 ∧
      ∀ k, k < 1 → (pts.getD k []).length = cfgPaired.lb.length ∧
        ∀ d, d < cfgPaired.lb.length →
          (pts.getD k []).getD d [] =
            [(([[(2 : ℚ)/97], [(5 : ℚ)/97]] : List (List ℚ)).getD (2 * k) []).getD d 0,
             (([[(2 : ℚ)/97], [(5 : ℚ)/97]] : List (List ℚ)).getD (2 * k + 1) []).getD d 0] :=
  C5_theorem cfgPaired modelFirstCoord (.generic 0) [] 1 (some 0) 21 rfl
    [[(2 : ℚ)/97], [(5 : ℚ)/97]] (of_decide_eq_true (by with_unfolding_all rfl))

/-- C6: the acquisition dispatch is closed over the acquisition identity:
the preference-utility variant is built from the model alone (no
training-input argument and no kwargs, even when kwargs are configured);
each baseline-requiring variant is built from the model, the model's
recorded training inputs, and the kwargs; every other variant is built
from the model and the kwargs. -/
theorem C6_theorem (kw : Kwargs) (model : Model) (ti : List (List ℚ))
    (ht : model.train_inputs = some ti) :
    instantiate_acquisition_fn .analyticExpectedUtilityOfBestOption kw model
        = some (.prefOnly model) ∧
    (∀ acqf ∈ baseline_requiring_acqfs,
      instantiate_acquisition_fn acqf kw model =
        some (.withBaseline model ti kw)) ∧
    ∀ tag : Nat, instantiate_acquisition_fn (.generic tag) kw model
        = some (.withKwargs model kw) := by
  refine ⟨rfl, ?_, ?_⟩
  · intro acqf hacqf
    fin_cases hacqf <;>
      simp [instantiate_acquisition_fn, ht, baseline_requiring_acqfs]
  · intro tag
    simp [instantiate_acquisition_fn, baseline_requiring_acqfs]

/-- C6 (witness): the dispatch at a model with training inputs `[[0]]` and
a configured (nonempty) kwargs mapping. -/
theorem C6_witness :
    instantiate_acquisition_fn .analyticExpectedUtilityOfBestOption
        [(0, 2)] modelWithTrain = some (.prefOnly modelWithTrain) ∧
    (∀ acqf ∈ baseline_requiring_acqfs,
      instantiate_acquisition_fn acqf [(0, 2)] modelWithTrain =
        some (.withBaseline modelWithTrain [[0]] [(0, 2)])) ∧
    ∀ tag : Nat, instantiate_acquisition_fn (.generic tag) [(0, 2)] modelWithTrain
        = some (.withKwargs modelWithTrain [(0, 2)]) :=
  C6_theorem [(0, 2)] modelWithTrain [[0]] rfl

/-- C7: the pool sampler takes the low-discrepancy branch exactly when the
effective dimensionality `D * q` does not exceed the Sobol engine's
maximum supported dimension; above that ceiling it takes the seeded
pseudo-random fallback, whose `samps × q × D` rescaled values still
respect the bounds. -/
theorem C7_theorem (cfg : GenConfig) (q : Nat) (seed : Option Nat)
    (hbounds : ∀ d, d < cfg.lb.length → cfg.lb.getD d 0 < cfg.ub.getD d 0) :
    (cfg.lb.length * q ≤ sobolMAXDIM →
      samplePool cfg q seed = sobolPool cfg q seed) ∧
    (sobolMAXDIM < cfg.lb.length * q →
      samplePool cfg q seed = fallbackPool cfg q seed ∧
      (fallbackPool cfg q seed).length = cfg.samps ∧
      ∀ row ∈ fallbackPool cfg q seed, row.length = q ∧
        ∀ pt ∈ row, pt.length = cfg.lb.length ∧
          ∀ d, d < cfg.lb.length →
            cfg.lb.getD d 0 ≤ pt.getD d 0 ∧ pt.getD d 0 ≤ cfg.ub.getD d 0) := by
  constructor
  · intro h
    unfold samplePool
    rw [if_pos h]
  · intro h
    have hno : ¬ (cfg.lb.length * q ≤ sobolMAXDIM) := not_le.2 h
    have heq : samplePool cfg q seed = fallbackPool cfg q seed := by
      unfold samplePool
      rw [if_neg hno]
    refine ⟨heq, ?_, ?_⟩
    · rw [← heq]
      exact samplePool_length cfg q seed
    · intro row hrow
      rw [← heq] at hrow
      exact ⟨(samplePool_row_shape hrow).1, fun pt hpt =>
        ⟨(samplePool_row_shape hrow).2 pt hpt,
         samplePool_pt_bounds hbounds row hrow hpt⟩⟩

/-- C7 (witness): the branch dichotomy at a one-dimensional configuration
with `q = 21202`, for which `D * q = 21202` exceeds `MAXDIM = 21201` and
the fallback branch is forced. -/
theorem C7_witness :
    (cfgUnit.lb.length * 21202 ≤ sobolMAXDIM →
      samplePool cfgUnit 21202 none = sobolPool cfgUnit 21202 none) ∧
    (sobolMAXDIM < cfgUnit.lb.length * 21202 →
      samplePool cfgUnit 21202 none = fallbackPool cfgUnit 21202 none ∧
      (fallbackPool cfgUnit 21202 none).length = cfgUnit.samps ∧
      ∀ row ∈ fallbackPool cfgUnit 21202 none, row.length = 21202 ∧
        ∀ pt ∈ row, pt.length = cfgUnit.lb.length ∧
          ∀ d, d < cfgUnit.lb.length →
            cfgUnit.lb.getD d 0 ≤ pt.getD d 0 ∧
              pt.getD d 0 ≤ cfgUnit.ub.getD d 0) :=
  C7_theorem cfgUnit 21202 none
    (by
      intro d hd
      simp only [cfgUnit, List.length_singleton] at hd ⊢
      interval_cases d
      norm_num)

/-- C8: when a baseline-requiring acquisition variant is selected and the
model cannot supply recorded training inputs, instantiation fails with a
capability error that propagates to the caller of `_gen`; the generator
never downgrades to a different variant (the result is an error, not an
instantiation of another shape). -/
theorem C8_theorem (acqf : AcqfId) (kw : Kwargs) (model : Model)
    (hb : acqf ∈ baseline_requiring_acqfs)
    (hno : model.train_inputs = none) :
    instantiate_acquisition_fn acqf kw model = none ∧
    ∀ (cfg : GenConfig) (n : Nat) (seed : Option Nat) (g : Nat),
      genInner cfg model acqf kw n seed g = (none, g) := by
  have hinst : instantiate_acquisition_fn acqf kw model = none := by
    fin_cases hb <;>
      simp [instantiate_acquisition_fn, hno, baseline_requiring_acqfs]
  refine ⟨hinst, ?_⟩
  intro cfg n seed g
  unfold genInner
  rw [hinst]

/-- C8 (witness): the capability error at a concrete baseline-requiring
variant and a model without training inputs. -/
theorem C8_witness :
    instantiate_acquisition_fn .noisyExpectedImprovement [] modelFirstCoord
        = none ∧
    genInner cfgUnit modelFirstCoord .noisyExpectedImprovement [] 1
        (some 0) 21 = (none, 21) := by
  have h := C8_theorem .noisyExpectedImprovement [] modelFirstCoord
    (by simp [baseline_requiring_acqfs]) rfl
  exact ⟨h.1, h.2 cfgUnit 1 (some 0) 21⟩

/-- C9: for every `stimuli_per_trial` other than 2 (including 0, 3, and
negative values), `gen` takes the single-stimulus path unchanged: it
behaves identically to `stimuli_per_trial = 1`, runs the pipeline with
`q = num_points`, and on a successful draw returns the `(num_points, D)`
result as-is. -/
theorem C9_theorem (cfg : GenConfig) (model : Model) (acqf : AcqfId)
    (kw : Kwargs) (n : Nat) (seed : Option Nat) (g : Nat)
    (h : cfg.stimuli_per_trial ≠ 2) :
    gen cfg model acqf kw n seed g =
      gen { cfg with stimuli_per_trial := 1 } model acqf kw n seed g ∧
    ∀ flat, (genInner cfg model acqf kw n seed g).1 = some flat →
      (gen cfg model acqf kw n seed g).1 = some (.single flat) ∧
      flat.length = n ∧ ∀ r ∈ flat, r.length = cfg.lb.length := by
  constructor
  · unfold gen
    rw [if_neg h, if_neg (show ¬ ({ cfg with stimuli_per_trial := 1 } :
        GenConfig).stimuli_per_trial = 2 by norm_num)]
    rfl
  · intro flat hflat
    obtain ⟨i, hi, hres, heq⟩ := genInner_success hflat
    have hmem : flat ∈ samplePool cfg n seed := hres ▸ getD_mem_of_lt hi
    have hshape := samplePool_row_shape hmem
    refine ⟨?_, hshape.1, hshape.2⟩
    unfold gen
    rw [if_neg h, heq]

/-- C9 (witness): `stimuli_per_trial = 3` behaves exactly as 1 at the
concrete configuration, returning the single-stimulus result. -/
theorem C9_witness :
    gen cfgTriple modelFirstCoord (.generic 0) [] 1 (some 0) 21 =
      gen { cfgTriple with stimuli_per_trial := 1 } modelFirstCoord
        (.generic 0) [] 1 (some 0) 21 ∧
    (gen cfgTriple modelFirstCoord (.generic 0) [] 1 (some 0) 21).1 =
      some (.single [[(2 : ℚ)/97]]) := by
  have h := C9_theorem cfgTriple modelFirstCoord (.generic 0) [] 1 (some 0) 21
    (by decide)
  exact ⟨h.1, (h.2 [[(2 : ℚ)/97]]
    (of_decide_eq_true (by with_unfolding_all rfl))).1⟩

/-- C10: a successful `_gen` draw returns exactly a row of the generated
candidate pool — the row at the drawn index — so the output is an element
of the pool, never an interpolated or newly constructed point. -/
theorem C10_theorem (cfg : GenConfig) (model : Model) (acqf : AcqfId)
    (kw : Kwargs) (n : Nat) (seed : Option Nat) (g : Nat)
    (res : List (List ℚ))
    (h : (genInner cfg model acqf kw n seed g).1 = some res) :
    ∃ i, i < (samplePool cfg n seed).length ∧
      res = (samplePool cfg n seed).getD i [] ∧
      res ∈ samplePool cfg n seed := by
  obtain ⟨i, hi, hres, -⟩ := genInner_success h
  exact ⟨i, hi, hres, hres ▸ getD_mem_of_lt hi⟩

/-- C10 (witness): the concrete draw returns pool row 1 of the concrete
pool, an exact element of it. -/
theorem C10_witness :
    ∃ i, i < (samplePool cfgUnit 1 (some 0)).length ∧
      [[(2 : ℚ)/97]] = (samplePool cfgUnit 1 (some 0)).getD i [] ∧
      [[(2 : ℚ)/97]] ∈ samplePool cfgUnit 1 (some 0) :=
  C10_theorem cfgUnit modelFirstCoord (.generic 0) [] 1 (some 0) 21
    [[(2 : ℚ)/97]] (of_decide_eq_true (by with_unfolding_all rfl))

end AcqfThompson
